import Mathlib

/-!
Verification development for the vroomy/plugins plugin registry.

The Go source is embedded shallowly: strings are `List Char`, Go string
helpers (`strings.Split`, `path.Split`, `filepath.Ext`, `filepath.Base`)
are translated as executable Lean functions, and the external
collaborators (git client, go toolchain, dynamic loader, reflection) are
modelled as explicit environments supplying their outcomes, with traces
recording which external operations were invoked.
-/

namespace VroomyPlugins

/-! ## Go strings.Split (non-empty separator)

`strings.Split(s, sep)` splits around every leftmost, non-overlapping
occurrence of `sep`.  `splitFuel` is the fuel-indexed structural version;
`splitGo` instantiates the fuel at the length of the input, which is
always sufficient. -/

def splitFuel (sep : List Char) : Nat → List Char → List (List Char)
  | 0, s => [s]
  | _ + 1, [] => [[]]
  | n + 1, c :: rest =>
    if sep ≠ [] ∧ sep <+: (c :: rest) then
      [] :: splitFuel sep n (rest.drop (sep.length - 1))
    else
      match splitFuel sep n rest with
      | [] => [[c]]
      | f :: fs => (c :: f) :: fs

def splitGo (sep s : List Char) : List (List Char) :=
  splitFuel sep s.length s

/-! ## path / filepath helpers from utils.go -/

/-- Go `path.Split`: splits after the final slash into (dir, file). -/
def pathSplit (p : List Char) : List Char × List Char :=
  ((p.reverse.dropWhile (fun c => c ≠ '/')).reverse,
   (p.reverse.takeWhile (fun c => c ≠ '/')).reverse)

/-- Go `filepath.Base`: the last element of the path after removing
trailing slashes (`"."` for the empty path, `"/"` if nothing remains). -/
def filepathBase (p : List Char) : List Char :=
  if p = [] then ['.']
  else
    let q := p.reverse.dropWhile (fun c => c = '/')
    if q = [] then ['/']
    else (q.takeWhile (fun c => c ≠ '/')).reverse

/-- Scanner for `fileExt`: walks the reversed path; hitting `.` first
yields the extension, hitting `/` first (or the start) yields none. -/
def extScan (acc : List Char) : List Char → List Char
  | [] => []
  | c :: rest =>
    if c = '/' then []
    else if c = '.' then '.' :: acc
    else extScan (c :: acc) rest

/-- Go `filepath.Ext`: the suffix beginning at the final dot in the final
slash-separated element; empty if there is no dot. -/
def fileExt (p : List Char) : List Char :=
  extScan [] p.reverse

/-- utils.go `getPluginKey`: base name truncated at the first dot. -/
def getPluginKey (filename : List Char) : List Char :=
  (splitGo ['.'] (filepathBase filename)).getD 0 []

/-- utils.go `removeBranchHash`: strip a `#branch` then a `@version` suffix. -/
def removeBranchHash (gitURL : List Char) : List Char :=
  (splitGo ['@'] ((splitGo ['#'] gitURL).getD 0 [])).getD 0 []

/-- utils.go `isLocal`: the key starts with the local-reference marker. -/
def isLocal (p : List Char) : Bool :=
  decide (['.', '/'] <+: p)

/-- Join two path components with a slash (the `filepath.Join` cleanup
normalization is not modelled; no claim depends on it). -/
def joinPath (dir name : List Char) : List Char :=
  if dir = [] then name else dir ++ '/' :: name

/-- utils.go `gitRepoFromURL`: truncate a nested plugin source to its
first three path segments (host/user/repo). -/
def gitRepoFromURL (gitURL : List Char) : List Char :=
  let comps := splitGo ['/'] gitURL
  if 3 < comps.length then
    joinPath (joinPath (comps.getD 0 []) (comps.getD 1 [])) (comps.getD 2 [])
  else gitURL

/-! ## utils.go ParseKey -/

/-- The literal alias delimiter `" as "`. -/
def sepAs : List Char := [' ', 'a', 's', ' ']

/-- utils.go `ParseKey`: split on `" as "`; an explicit second half is the
alias, otherwise the alias is the final path segment truncated at the
first `-`, then `@`, then `#`. -/
def parseKeyGo (key : List Char) : List Char × List Char :=
  let spl := splitGo sepAs key
  let newKey := spl.getD 0 []
  if 1 < spl.length then
    (newKey, spl.getD 1 [])
  else
    let name := (pathSplit newKey).2
    let a1 := (splitGo ['-'] name).getD 0 []
    let a2 := (splitGo ['@'] a1).getD 0 []
    let a3 := (splitGo ['#'] a2).getD 0 []
    (newKey, a3)

/-! ## Plugin record and plugin.go newPlugin

`isGitReference` and `getGitURLParts` delegate to `net/url.Parse`, an
external collaborator; they are supplied by a `GitOracle`.  The runtime
handles held by a record (`out`, `p`, `cm`) carry no specified data and
are omitted. -/

structure PluginRec where
  importKey : List Char
  aliasName : List Char  -- the source field is named alias (a Lean keyword)
  gitURL : List Char
  filename : List Char
  branch : List Char
  update : Bool
deriving DecidableEq, Repr

structure GitOracle where
  /-- models utils.go `isGitReference` (url.Parse of the implied-scheme URL succeeds) -/
  isGitRef : List Char → Bool
  /-- models utils.go `getGitURLParts`: (gitUser, repoName, branch) or the parse error -/
  urlParts : List Char → Except (List Char) (List Char × List Char × List Char)

/-- plugin.go `newPlugin`: parse the key, then classify by artifact
extension first, git reference second; otherwise the source is
unsupported. -/
def newPlugin (O : GitOracle) (dir key0 : List Char) (update : Bool) :
    Except (List Char) PluginRec :=
  let pk := parseKeyGo key0
  let key := pk.1
  let alias0 := pk.2
  if fileExt key ≠ [] then
    .ok { importKey := key0
        , aliasName := if alias0 = [] then getPluginKey key else alias0
        , gitURL := []
        , filename := key
        , branch := []
        , update := update }
  else if O.isGitRef key then
    match O.urlParts key with
    | .error e => .error e
    | .ok (_, repoName, branch) =>
      let al := if alias0 = [] then repoName else alias0
      .ok { importKey := key0
          , aliasName := al
          , gitURL := removeBranchHash key
          , filename := joinPath dir (al ++ ".so".toList)
          , branch := branch
          , update := update }
  else .error ("plugin type not supported: ".toList ++ key)

/-- Oracle reflecting that `url.Parse` accepts virtually every key; the
URL-part decomposition is irrelevant to the claims that use it. -/
def trivGitOracle : GitOracle :=
  { isGitRef := fun _ => true
  , urlParts := fun _ => .error [] }

/-! ## Registry state (the slice-based Plugins of the source) -/

structure PluginsState where
  dir : List Char
  branchOverride : List Char
  ps : List PluginRec
  closed : Bool
deriving DecidableEq, Repr

/-- Error text of `ErrPluginKeyExists`. -/
def errPluginKeyExists : List Char := "plugin cannot be added, key already exists".toList

/-- Modelled from the spec: `pluginslice.append` is not under src/ (only
its caller `Plugins.New` is); per the spec, registering a record whose
alias already exists fails with the duplicate error and does not mutate
the slice, otherwise the record is appended. -/
def pluginsliceAppend (ps : List PluginRec) (pi : PluginRec) :
    Except (List Char) (List PluginRec) :=
  if ps.any (fun q => decide (q.aliasName = pi.aliasName)) then .error errPluginKeyExists
  else .ok (ps ++ [pi])

/-- `Plugins.New`: build the record, append it (duplicate aliases fail),
return the alias.  The source performs no closed-flag check here. -/
def pluginsNew (O : GitOracle) (st : PluginsState) (pluginKey : List Char)
    (update : Bool) : PluginsState × Except (List Char) (List Char) :=
  match newPlugin O st.dir pluginKey update with
  | .error e => (st, .error e)
  | .ok pi =>
    match pluginsliceAppend st.ps pi with
    | .error e => (st, .error e)
    | .ok ps2 => ({ st with ps := ps2 }, .ok pi.aliasName)

/-! ## Batch operations (Plugins.Build / BuildAsync / Test / Retrieve /
Initialize / Close)

Per-record toolchain outcomes are supplied by environments keyed on the
record alias; each operation also returns the list of aliases whose
underlying external operation was actually invoked.  None of the batch
operations in the source consult the closed flag; only Close does. -/

/-- Sequential `Plugins.Build`: abort the batch at the first failing
record's error. -/
def buildSeq (f : List Char → Option (List Char)) :
    List PluginRec → Option (List Char) × List (List Char)
  | [] => (none, [])
  | r :: rs =>
    match f r.aliasName with
    | some e => (some e, [r.aliasName])
    | none =>
      let t := buildSeq f rs
      (t.1, r.aliasName :: t.2)

/-- The tasks submitted by `Plugins.BuildAsync`: every record's build
runs (the worker-pool interleaving is serialized in this model), each
failure is pushed onto the error list. -/
def runTasks (f : List Char → Option (List Char)) :
    List PluginRec → List (List Char) × List (List Char)
  | [] => ([], [])
  | r :: rs =>
    let rest := runTasks f rs
    ((match f r.aliasName with | none => [] | some e => [e]) ++ rest.1,
     r.aliasName :: rest.2)

/-- `Plugins.BuildAsync`: wait for every task, return `errs.Err()` (nil
when no task failed, the aggregated list otherwise). -/
def buildAsync (f : List Char → Option (List Char)) (rs : List PluginRec) :
    Option (List (List Char)) × List (List Char) :=
  let t := runTasks f rs
  ((if t.1 = [] then none else some t.1), t.2)

def buildRegistry (st : PluginsState) (f : List Char → Option (List Char)) :
    Option (List Char) × List (List Char) :=
  buildSeq f st.ps

def buildAsyncRegistry (st : PluginsState) (f : List Char → Option (List Char)) :
    Option (List (List Char)) × List (List Char) :=
  buildAsync f st.ps

/-! ## Plugin.test and the sequential Test batch -/

structure TestEnv where
  /-- outcome of utils.go `doesPluginExist` on the record's filename -/
  artifactExists : Bool
  /-- outcome of utils.go `goTest`: error text, or whether the pass marker appeared -/
  goTestRes : Except (List Char) Bool

/-- `Plugin.test`: skipped (success, no toolchain call) when the artifact
exists and the update flag is unset; otherwise `goTest` runs, a toolchain
error becomes the named per-plugin failure, pass and no-tests-found are
both success.  The Bool records whether `goTest` was invoked. -/
def testPlugin (p : PluginRec) (env : TestEnv) : Option (List Char) × Bool :=
  if env.artifactExists ∧ p.update = false then (none, false)
  else
    match env.goTestRes with
    | .error _ => (some (p.aliasName ++ " failed test".toList), true)
    | .ok _ => (none, true)

/-- Sequential `Plugins.Test`: abort at the first failing record. -/
def testSeq (f : List Char → TestEnv) :
    List PluginRec → Option (List Char) × List (List Char)
  | [] => (none, [])
  | r :: rs =>
    match (testPlugin r (f r.aliasName)).1 with
    | some e => (some e, [r.aliasName])
    | none =>
      let t := testSeq f rs
      (t.1, r.aliasName :: t.2)

def testRegistry (st : PluginsState) (f : List Char → TestEnv) :
    Option (List Char) × List (List Char) :=
  testSeq f st.ps

/-! ## Plugins.Retrieve and Plugins.Initialize -/

/-- `Plugins.Retrieve`: visit records in order, deduplicating by the
three-segment repository key (the key is recorded before the local-path
check), skipping local sources, aborting at the first update failure.
`f` supplies each record's `updatePlugin` outcome. -/
def retrieveSeq (f : List Char → Option (List Char)) :
    List PluginRec → List (List Char) → Option (List Char) × List (List Char)
  | [], _ => (none, [])
  | r :: rs, seen =>
    let repo := gitRepoFromURL r.gitURL
    if repo ∈ seen then retrieveSeq f rs seen
    else if isLocal r.gitURL then retrieveSeq f rs (repo :: seen)
    else
      match f r.aliasName with
      | some e => (some e, [r.aliasName])
      | none =>
        let t := retrieveSeq f rs (repo :: seen)
        (t.1, r.aliasName :: t.2)

def retrieveRegistry (st : PluginsState) (f : List Char → Option (List Char)) :
    Option (List Char) × List (List Char) :=
  retrieveSeq f st.ps []

/-- Sequential `Plugins.Initialize`: load every record's artifact via the
dynamic loader (outcomes supplied by `f`), aborting at the first load
failure. -/
def initSeq (f : List Char → Option (List Char)) :
    List PluginRec → Option (List Char) × List (List Char)
  | [] => (none, [])
  | r :: rs =>
    match f r.aliasName with
    | some e => (some e, [r.aliasName])
    | none =>
      let t := initSeq f rs
      (t.1, r.aliasName :: t.2)

def initRegistry (st : PluginsState) (f : List Char → Option (List Char)) :
    Option (List Char) × List (List Char) :=
  initSeq f st.ps

/-! ## Plugins.Close -/

inductive CloseErr
  /-- `errors.ErrIsClosed`, returned when the registry is already closed -/
  | isClosed
  /-- the aggregated per-record close failures (`errs.Err()` non-nil case) -/
  | agg (errs : List (List Char))
deriving DecidableEq, Repr

/-- The wrapped entry pushed for a record whose Close capability failed. -/
def wrapCloseErr (r : PluginRec) (e : List Char) : List Char :=
  "error closing ".toList ++ r.aliasName ++ " (".toList ++ r.filename ++ "): ".toList ++ e

/-- `Plugins.Close`: fail immediately when already closed; otherwise
invoke every record's Close capability (outcomes supplied by `cenv`),
collect failures, mark the registry closed unconditionally, and return
the aggregate (none when empty).  The returned alias list records whose
Close capability was invoked. -/
def closeRegistry (st : PluginsState) (cenv : List Char → Option (List Char)) :
    PluginsState × Option CloseErr × List (List Char) :=
  if st.closed then (st, some .isClosed, [])
  else
    let errs := st.ps.foldl
      (fun acc r =>
        match cenv r.aliasName with
        | some e => acc ++ [wrapCloseErr r e]
        | none => acc) []
    ({ st with closed := true },
     (if errs = [] then none else some (.agg errs)),
     st.ps.map (fun r => r.aliasName))

/-! ## utils.go getHandlerParts -/

inductive HandlerParts
  | parts (key handler : List Char) (args : List (List Char))
  /-- `ErrExpectedEndParen` -/
  | errParen
  /-- the Go code indexes out of range and the runtime raises -/
  | outOfRange
deriving DecidableEq, Repr

/-- utils.go `getHandlerParts`: split on `.` (indexing `spl[1]`
unconditionally), then the method on `(`; a non-empty argument segment
must end in `)`, an empty one is indexed at position -1. -/
def getHandlerParts (handlerKey : List Char) : HandlerParts :=
  match splitGo ['.'] handlerKey with
  | [] => .outOfRange
  | [_] => .outOfRange
  | key :: handler0 :: _ =>
    match splitGo ['('] handler0 with
    | [] => .outOfRange
    | [_] => .parts key handler0 []
    | h0 :: argsStr :: _ =>
      match argsStr.getLast? with
      | none => .outOfRange
      | some c =>
        if c = ')' then .parts key h0 (splitGo [','] argsStr.dropLast)
        else .errParen

/-! ## Branch/version resolution (Plugin.updatePlugin / setTargetBranch)

External git/go processes are represented by their observable effects: a
run error and the captured stderr/stdout.  Each resolution function also
returns the ordered trace of external operations performed. -/

/-- Bool substring test (Go `strings.Index(s, pat) > -1` / `strings.Contains`). -/
def containsSub (s pat : List Char) : Bool :=
  decide (pat <:+: s)

structure ExecOut where
  runErr : Option (List Char)
  errOut : List Char
  stdOut : List Char

/-- utils.go `gitCheckout`: clean runs return stdout; otherwise the
captured stderr is classified by substring — empty stderr and the
`Already on` phrase return the run error as-is, `Switched to` is success
with stderr as status, anything else becomes an error carrying the
stderr text. -/
def gitCheckoutM (e : ExecOut) : List Char × Option (List Char) :=
  if e.runErr = none ∧ e.errOut = [] then (e.stdOut, none)
  else if e.errOut = [] then ([], e.runErr)
  else if containsSub e.errOut ("Already on".toList) then ([], e.runErr)
  else if containsSub e.errOut ("Switched to".toList) then (e.errOut, e.runErr)
  else ([], some e.errOut)

/-- `Plugin.checkout` (loader variant): propagate the `gitCheckout` error. -/
def checkoutM (e : ExecOut) : Option (List Char) :=
  (gitCheckoutM e).2

/-- utils.go `gitPull`: a failed run reports the stderr text when present
(the raw run error otherwise); an `up to date` report is an empty status. -/
def gitPullM (e : ExecOut) : List Char × Option (List Char) :=
  if e.runErr ≠ none then
    ([], if e.errOut ≠ [] then some e.errOut else e.runErr)
  else if containsSub e.stdOut ("up to date".toList) then ([], none)
  else (e.stdOut, none)

inductive GitOp
  | goGetOp | checkoutOp | fetchTagsOp | pullOp | depsOp
deriving DecidableEq, Repr

structure ResolveEnv where
  /-- first `git checkout` execution -/
  c1 : ExecOut
  /-- utils.go `gitFetchTags` returns its run error unconditionally -/
  fetchTagsErr : Option (List Char)
  /-- retried `git checkout` execution -/
  c2 : ExecOut
  /-- outcome of `updatePluginDependencies` -/
  depsErr : Option (List Char)
  /-- outcome of `doesPluginSourceExist` -/
  sourceExists : Bool
  /-- `git pull` execution -/
  pull : ExecOut

def headMsg : List Char := "HEAD is now at".toList

/-- `Plugin.setTargetBranch`: classify the first checkout failure by the
detached-head phrase; unrecognized failures fetch tags once and retry the
checkout once; a (still) detached-head outcome refreshes dependencies and
reports that no pull is needed. -/
def setTargetBranch (env : ResolveEnv) : Bool × Option (List Char) × List GitOp :=
  match checkoutM env.c1 with
  | none => (true, none, [.checkoutOp])
  | some e1 =>
    if containsSub e1 headMsg then
      (false, env.depsErr, [.checkoutOp, .depsOp])
    else
      match env.fetchTagsErr with
      | some fe => (true, some fe, [.checkoutOp, .fetchTagsOp])
      | none =>
        match checkoutM env.c2 with
        | none => (true, none, [.checkoutOp, .fetchTagsOp, .checkoutOp])
        | some e2 =>
          if containsSub e2 headMsg then
            (false, env.depsErr, [.checkoutOp, .fetchTagsOp, .checkoutOp, .depsOp])
          else
            (true, some e2, [.checkoutOp, .fetchTagsOp, .checkoutOp])

/-- Tail of `Plugin.updatePlugin` after branch resolution: pull; on a
clean pull with changes, or on a pull error (which the source discards by
overwriting it), refresh dependencies; an up-to-date pull returns. -/
def afterPull (pre : List GitOp) (env : ResolveEnv) :
    Option (List Char) × List GitOp :=
  let pr := gitPullM env.pull
  if pr.2 = none then
    if pr.1 ≠ [] then (env.depsErr, pre ++ [.pullOp, .depsOp])
    else (none, pre ++ [.pullOp])
  else (env.depsErr, pre ++ [.pullOp, .depsOp])

/-- `Plugin.updatePlugin`: fetch missing sources (failures logged and
discarded), resolve the target branch when one is pinned (no pull when
resolution says so), pull and refresh dependencies otherwise. -/
def updatePlugin (p : PluginRec) (override : List Char) (env : ResolveEnv) :
    Option (List Char) × List GitOp :=
  if p.gitURL = [] then (none, [])
  else
    let pre : List GitOp := if env.sourceExists then [] else [.goGetOp]
    let br := if override ≠ [] then override else p.branch
    if br ≠ [] then
      match setTargetBranch env with
      | (shouldPull, e, tr) =>
        if shouldPull = false ∨ e ≠ none then (e, pre ++ tr)
        else afterPull (pre ++ tr) env
    else afterPull pre env

/-! ## Backend binding (Plugins.Backend)

`reflect.ValueOf(backend)` yields a value of the argument's dynamic type
(never of interface kind), so `.Elem()` panics unless that type is a
pointer; `reflect.Value.Type` panics on the zero value, which `ValueOf`
returns for a nil interface.  Those documented reflect behaviors are the
panic sites modelled here. -/

structure RDest where
  /-- the dynamic type of the destination argument is a pointer -/
  isPtr : Bool
  /-- the pointed-to slot is settable -/
  canSet : Bool
  /-- name of the pointed-to (expected) type -/
  elemTy : List Char

structure ReflectEnv where
  /-- structural conformance: the backend type implements the destination interface -/
  implementsRel : List Char → List Char → Bool

inductive BackendRes
  | ok
  | panicked (msg : List Char)
  | errRes (e : List Char)
deriving DecidableEq, Repr

def elemPanicMsg : List Char :=
  "reflect: call of reflect.Value.Elem on non-pointer Value".toList

def zeroTypePanicMsg : List Char :=
  "reflect: call of reflect.Value.Type on zero Value".toList

def errNotAddressable : List Char :=
  "provided backend must be addressable".toList

def typeMismatchMsg (expected actual : List Char) : List Char :=
  "invalid type, expected ".toList ++ expected ++ " and received ".toList ++ actual

/-- The binding stage of `Plugins.Backend` (shared by both source
variants, reached once the plugin is found): dereference the destination,
check settability, inspect the backend value's runtime type, and assign
on an exact match or interface conformance. -/
def bindBackend (env : ReflectEnv) (dest : RDest) (backendVal : Option (List Char)) :
    BackendRes :=
  if dest.isPtr = false then .panicked elemPanicMsg
  else if dest.canSet = false then .errRes errNotAddressable
  else
    match backendVal with
    | none => .panicked zeroTypePanicMsg
    | some bty =>
      if bty = dest.elemTy then .ok
      else if env.implementsRel bty dest.elemTy then .ok
      else .errRes (typeMismatchMsg dest.elemTy bty)

/-! ## Concrete fixtures used by witnesses and counterexamples -/

/-- An empty, open registry rooted at `plugins`. -/
def stEmpty : PluginsState :=
  { dir := "plugins".toList, branchOverride := [], ps := [], closed := false }

/-- A repository-sourced record with a pinned branch. -/
def recGit : PluginRec :=
  { importKey := "github.com/user/myplugin#dev".toList
  , aliasName := "myplugin".toList
  , gitURL := "github.com/user/myplugin".toList
  , filename := "plugins/myplugin.so".toList
  , branch := "dev".toList
  , update := false }

/-- An open registry holding `recGit`. -/
def stOne : PluginsState :=
  { dir := "plugins".toList, branchOverride := [], ps := [recGit], closed := false }

def recA : PluginRec :=
  { importKey := "./x/a.so".toList, aliasName := "a".toList, gitURL := []
  , filename := "./x/a.so".toList, branch := [], update := false }

def recB : PluginRec :=
  { importKey := "./x/b.so".toList, aliasName := "b".toList, gitURL := []
  , filename := "./x/b.so".toList, branch := [], update := false }

def recC : PluginRec :=
  { importKey := "./x/c.so".toList, aliasName := "c".toList, gitURL := []
  , filename := "./x/c.so".toList, branch := [], update := false }

/-- Build outcomes where only the record aliased `b` fails. -/
def onlyBFails : List Char → Option (List Char) :=
  fun a => if a = "b".toList then some ("compile error".toList) else none

/-- A checkout execution failing with a detached-head diagnostic. -/
def envDetached : ResolveEnv :=
  { c1 := { runErr := some ("exit status 1".toList)
          , errOut := "HEAD is now at 1a2b3c".toList, stdOut := [] }
  , fetchTagsErr := none
  , c2 := { runErr := none, errOut := [], stdOut := [] }
  , depsErr := none
  , sourceExists := true
  , pull := { runErr := none, errOut := [], stdOut := [] } }

/-- Checkout executions failing twice with an unrecognized diagnostic. -/
def envUnrecognized : ResolveEnv :=
  { c1 := { runErr := some ("exit status 1".toList)
          , errOut := "error: pathspec v9 did not match".toList, stdOut := [] }
  , fetchTagsErr := none
  , c2 := { runErr := some ("exit status 1".toList)
          , errOut := "error: pathspec v9 did not match".toList, stdOut := [] }
  , depsErr := none
  , sourceExists := true
  , pull := { runErr := none, errOut := [], stdOut := [] } }

/-! ## Lemmas about the split function -/

/-- The fuel argument is irrelevant as long as it is at least the length
of the list being split. -/
theorem splitFuel_congr (sep : List Char) :
    ∀ n m s, s.length ≤ n → s.length ≤ m → splitFuel sep n s = splitFuel sep m s := by
  intro n
  induction n with
  | zero =>
    intro m s hn _
    have hs : s = [] := List.eq_nil_of_length_eq_zero (Nat.le_zero.mp hn)
    subst hs
    cases m <;> rfl
  | succ n ih =>
    intro m s hn hm
    cases s with
    | nil => cases m <;> rfl
    | cons c rest =>
      cases m with
      | zero => simp at hm
      | succ m' =>
        simp only [splitFuel]
        by_cases h : sep ≠ [] ∧ sep <+: (c :: rest)
        · rw [if_pos h, if_pos h]
          have hlen : (rest.drop (sep.length - 1)).length ≤ n := by
            have := List.length_drop (sep.length - 1) rest
            have hr : rest.length ≤ n := by
              simpa using Nat.lt_succ_iff.mp (by simpa using Nat.lt_of_lt_of_le (Nat.lt_succ_self _) hn)
            omega
          have hlen' : (rest.drop (sep.length - 1)).length ≤ m' := by
            have := List.length_drop (sep.length - 1) rest
            have hr : rest.length ≤ m' := by
              simpa using Nat.lt_succ_iff.mp (by simpa using Nat.lt_of_lt_of_le (Nat.lt_succ_self _) hm)
            omega
          rw [ih _ _ hlen hlen']
        · rw [if_neg h, if_neg h]
          have hr : rest.length ≤ n := by simpa using Nat.succ_le_succ_iff.mp hn
          have hr' : rest.length ≤ m' := by simpa using Nat.succ_le_succ_iff.mp hm
          rw [ih _ _ hr hr']

/-- A list in which the separator never occurs is returned whole. -/
theorem splitFuel_no_occurrence (sep : List Char) :
    ∀ n s, ¬ sep <:+: s → splitFuel sep n s = [s] := by
  intro n
  induction n with
  | zero => intro s _; rfl
  | succ n ih =>
    intro s h
    cases s with
    | nil => rfl
    | cons c rest =>
      simp only [splitFuel]
      have hcond : ¬ (sep ≠ [] ∧ sep <+: (c :: rest)) := by
        rintro ⟨-, hp⟩
        exact h hp.isInfix
      rw [if_neg hcond]
      have hrest : ¬ sep <:+: rest := fun hi => h (List.infix_cons hi)
      rw [ih rest hrest]

theorem splitGo_no_occurrence {sep s : List Char} (h : ¬ sep <:+: s) :
    splitGo sep s = [s] :=
  splitFuel_no_occurrence sep s.length s h

/-- Splitting `s ++ sep ++ t` when no occurrence of `sep` starts inside
`s` (neither wholly inside `s` nor straddling into the appended
separator): the first field is exactly `s` and splitting continues on
`t`. -/
theorem splitFuel_boundary (sep : List Char) (hne : sep ≠ []) :
    ∀ s t n, (s ++ sep ++ t).length ≤ n →
      ¬ sep <:+: (s ++ sep.dropLast) →
      splitFuel sep n (s ++ sep ++ t) = s :: splitFuel sep t.length t := by
  intro s
  induction s with
  | nil =>
    intro t n hn h
    cases sep with
    | nil => exact absurd rfl hne
    | cons d sep' =>
      cases n with
      | zero => simp at hn
      | succ n' =>
        simp only [List.nil_append, List.cons_append, splitFuel, List.append_eq]
        have hcond : (d :: sep') ≠ [] ∧ (d :: sep') <+: (d :: (sep' ++ t)) := by
          refine ⟨by simp, ?_⟩
          exact ⟨t, by simp⟩
        rw [if_pos hcond]
        have hdrop : (sep' ++ t).drop ((d :: sep').length - 1) = t := by
          simp [List.drop_left]
        rw [hdrop]
        have hlt : t.length ≤ n' := by
          simp only [List.cons_append, List.length_cons, List.length_append] at hn
          omega
        rw [splitFuel_congr (d :: sep') n' t.length t hlt (Nat.le_refl _)]
  | cons c s' ih =>
    intro t n hn h
    cases n with
    | zero => simp at hn
    | succ n' =>
      simp only [List.cons_append, splitFuel, List.append_eq]
      have hcond : ¬ (sep ≠ [] ∧ sep <+: (c :: (s' ++ sep ++ t))) := by
        rintro ⟨-, hp⟩
        apply h
        -- sep is a prefix of the whole list; the block `(c :: s') ++ sep.dropLast`
        -- is also a prefix and is at least as long, so sep is a prefix of it.
        have hblock : ((c :: s') ++ sep.dropLast) <+: (c :: (s' ++ sep ++ t)) := by
          refine ⟨sep.getLast hne :: t, ?_⟩
          have hsep : sep.dropLast ++ [sep.getLast hne] = sep :=
            List.dropLast_append_getLast hne
          calc (c :: s') ++ sep.dropLast ++ (sep.getLast hne :: t)
              = (c :: s') ++ (sep.dropLast ++ [sep.getLast hne]) ++ t := by simp
            _ = (c :: s') ++ sep ++ t := by rw [hsep]
            _ = c :: (s' ++ sep ++ t) := by simp
        have hlen : sep.length ≤ ((c :: s') ++ sep.dropLast).length := by
          have : sep.length - 1 ≤ sep.dropLast.length := by
            simp [List.length_dropLast]
          simp only [List.length_append, List.length_cons, List.length_dropLast]
          have hpos : 1 ≤ sep.length := List.length_pos.mpr hne
          omega
        exact (List.prefix_of_prefix_length_le hp hblock hlen).isInfix
      rw [if_neg hcond]
      have h' : ¬ sep <:+: (s' ++ sep.dropLast) := by
        intro hi
        apply h
        have hc : sep <:+: c :: (s' ++ sep.dropLast) := List.infix_cons hi
        simpa using hc
      have hn' : (s' ++ sep ++ t).length ≤ n' := by
        simp only [List.cons_append, List.length_cons, List.length_append] at hn
        simp only [List.length_append]
        omega
      rw [ih t n' hn' h']

theorem splitGo_boundary {sep s t : List Char} (hne : sep ≠ [])
    (h : ¬ sep <:+: (s ++ sep.dropLast)) :
    splitGo sep (s ++ sep ++ t) = s :: splitGo sep t :=
  splitFuel_boundary sep hne s t _ (Nat.le_refl _) h

/-- A one-element list is an infix exactly when its element occurs. -/
theorem single_occurrence_mem {c : Char} {l : List Char} (h : [c] <:+: l) : c ∈ l := by
  obtain ⟨u, v, rfl⟩ := h
  simp

/-! ## Claim theorems -/

/-- C3 (counterexample): registering `./local/foo.so` does not produce
alias `foo`; the fallback alias keeps the artifact extension, yielding
`foo.so`. -/
theorem local_so_alias_counterexample :
    (newPlugin trivGitOracle ("plugins".toList) ("./local/foo.so".toList) false).toOption.map
        PluginRec.aliasName ≠ some ("foo".toList) ∧
    (newPlugin trivGitOracle ("plugins".toList) ("./local/foo.so".toList) false).toOption.map
        PluginRec.aliasName = some ("foo.so".toList) := by
  constructor
  · decide
  · decide

/-- C3 (amended): registering the key `./local/foo.so` produces a record
with alias `foo.so` (the final path segment, extension included), source
kind local (no repository URL), and artifact file path equal to the given
path verbatim — for every oracle, registry directory and update flag. -/
theorem local_so_registration (O : GitOracle) (dir : List Char) (u : Bool) :
    newPlugin O dir ("./local/foo.so".toList) u =
      .ok { importKey := "./local/foo.so".toList
          , aliasName := "foo.so".toList
          , gitURL := []
          , filename := "./local/foo.so".toList
          , branch := []
          , update := u } := rfl

/-- C4 (counterexample): for source `x as` and alias `y`, parsing
`"x as" ++ " as " ++ "y"` does not return `y` — the delimiter occurrence
straddling the source/delimiter boundary wins, so the alias is `as y`. -/
theorem explicit_alias_counterexample :
    (parseKeyGo ("x as".toList ++ sepAs ++ "y".toList)).2 ≠ "y".toList ∧
    (parseKeyGo ("x as".toList ++ sepAs ++ "y".toList)).2 = "as y".toList := by
  constructor
  · decide
  · decide

/-- C4 (amended): parsing `s ++ " as " ++ a` returns exactly `a` as the
alias provided no occurrence of the delimiter `" as "` starts inside
`s ++ " as"` (in particular, `s` neither contains the delimiter nor ends
with `" as"`) and `a` does not contain the delimiter. -/
theorem explicit_alias_parses (s a : List Char)
    (h1 : ¬ sepAs <:+: (s ++ sepAs.dropLast)) (h2 : ¬ sepAs <:+: a) :
    (parseKeyGo (s ++ sepAs ++ a)).2 = a := by
  unfold parseKeyGo
  rw [splitGo_boundary (by decide) h1, splitGo_no_occurrence h2]
  simp

/-- C4 (witness): a concrete source/alias pair satisfying the side
conditions, with the explicit alias returned verbatim. -/
theorem explicit_alias_parses_witness :
    (parseKeyGo ("github.com/user/repo".toList ++ sepAs ++ "myalias".toList)).2 =
      "myalias".toList :=
  explicit_alias_parses ("github.com/user/repo".toList) ("myalias".toList)
    (by decide) (by decide)

/-- C6: a record whose artifact already exists and whose update flag is
unset is skipped by `test`: success, and the test toolchain is not
invoked. -/
theorem test_skipped_when_artifact_exists (p : PluginRec) (env : TestEnv)
    (h1 : env.artifactExists = true) (h2 : p.update = false) :
    testPlugin p env = (none, false) := by
  simp [testPlugin, h1, h2]

/-- C6 (witness): concrete record and environment — even with a failing
test outcome waiting, the skip path returns success without invoking it. -/
theorem test_skipped_when_artifact_exists_witness :
    testPlugin
      { importKey := "./p/a.so".toList, aliasName := "a.so".toList, gitURL := []
      , filename := "./p/a.so".toList, branch := [], update := false }
      { artifactExists := true, goTestRes := .error ("would fail".toList) } =
      (none, false) :=
  test_skipped_when_artifact_exists _ _ rfl rfl

/-- C8: the handler key `alias.Method(1,2,3)` parses into alias `alias`,
method `Method` and the ordered argument list `1`, `2`, `3`; the same key
missing its closing parenthesis fails with the expected-ending-parenthesis
error. -/
theorem handler_key_examples :
    getHandlerParts ("alias.Method(1,2,3)".toList) =
      .parts ("alias".toList) ("Method".toList) ["1".toList, "2".toList, "3".toList] ∧
    getHandlerParts ("alias.Method(1,2,3".toList) = .errParen := by
  constructor
  · decide
  · decide

/-- C10: the handler-key parser indexes out of range (a Go runtime panic)
rather than returning an error, (i) on every input containing no `.`
character, and (ii) on every input whose text after the opening
parenthesis is empty — `key.method(` with no `.` in either segment and no
further `(` in the method. -/
theorem handler_key_not_total :
    (∀ input : List Char, '.' ∉ input → getHandlerParts input = .outOfRange) ∧
    (∀ k m : List Char, '.' ∉ k → '.' ∉ m → '(' ∉ m →
      getHandlerParts (k ++ '.' :: (m ++ ['('])) = .outOfRange) := by
  constructor
  · intro input h
    have hocc : ¬ ['.'] <:+: input := fun hi => h (single_occurrence_mem hi)
    simp [getHandlerParts, splitGo_no_occurrence hocc]
  · intro k m hk hm hpm
    have hkocc : ¬ ['.'] <:+: (k ++ (['.'] : List Char).dropLast) := by
      simpa using fun hi => hk (single_occurrence_mem hi)
    have htail : ¬ ['.'] <:+: (m ++ ['(']) := by
      intro hi
      rcases List.mem_append.mp (single_occurrence_mem hi) with h1 | h2
      · exact hm h1
      · exact absurd (List.mem_singleton.mp h2) (by decide)
    have hstep : splitGo ['.'] (k ++ ['.'] ++ (m ++ ['('])) =
        k :: splitGo ['.'] (m ++ ['(']) :=
      splitGo_boundary (by decide) hkocc
    have hmocc : ¬ ['('] <:+: (m ++ (['('] : List Char).dropLast) := by
      simpa using fun hi => hpm (single_occurrence_mem hi)
    have hpar : splitGo ['('] (m ++ ['('] ++ ([] : List Char)) =
        m :: splitGo ['('] [] :=
      splitGo_boundary (by decide) hmocc
    have hkey : k ++ '.' :: (m ++ ['(']) = k ++ ['.'] ++ (m ++ ['(']) := by simp
    rw [hkey]
    simp only [getHandlerParts, hstep, splitGo_no_occurrence htail]
    have hpar' : splitGo ['('] (m ++ ['(']) = [m, []] := by
      simpa using hpar
    simp [hpar']

/-- C10 (witness): `aliasMethod3` has no dot; `alias.Method(` has empty
text after its opening parenthesis — both make the parser index out of
range. -/
theorem handler_key_not_total_witness :
    getHandlerParts ("aliasMethod3".toList) = .outOfRange ∧
    getHandlerParts ("alias.Method(".toList) = .outOfRange := by
  constructor
  · exact handler_key_not_total.1 ("aliasMethod3".toList) (by decide)
  · have h := handler_key_not_total.2 ("alias".toList) ("Method".toList)
      (by decide) (by decide) (by decide)
    simpa using h

/-- C2: registering a second identifier that resolves to an alias already
present fails with the duplicate error, and the record count is unchanged
by the failed call. -/
theorem duplicate_alias_registration (O : GitOracle) (st : PluginsState)
    (k1 k2 : List Char) (u1 u2 : Bool) (a : List Char) (p2 : PluginRec)
    (h1 : (pluginsNew O st k1 u1).2 = .ok a)
    (h2 : newPlugin O st.dir k2 u2 = .ok p2)
    (h3 : p2.aliasName = a) :
    (pluginsNew O (pluginsNew O st k1 u1).1 k2 u2).2 = .error errPluginKeyExists ∧
    ((pluginsNew O (pluginsNew O st k1 u1).1 k2 u2).1).ps.length =
      ((pluginsNew O st k1 u1).1).ps.length := by
  cases hnp : newPlugin O st.dir k1 u1 with
  | error e => simp [pluginsNew, hnp] at h1
  | ok p1 =>
    by_cases hdup : st.ps.any (fun q => decide (q.aliasName = p1.aliasName))
    · simp [pluginsNew, hnp, pluginsliceAppend, hdup] at h1
    · have ha : p1.aliasName = a := by
        simpa [pluginsNew, hnp, pluginsliceAppend, hdup] using h1
      have hst1 : (pluginsNew O st k1 u1).1 = { st with ps := st.ps ++ [p1] } := by
        simp [pluginsNew, hnp, pluginsliceAppend, hdup]
      rw [hst1]
      have hany : ((st.ps ++ [p1]).any (fun q => decide (q.aliasName = p2.aliasName))) = true := by
        rw [List.any_append]
        have : p1.aliasName = p2.aliasName := by rw [ha, h3]
        simp [this]
      simp [pluginsNew, h2, pluginsliceAppend, hany]

/-- C2 (witness): two local keys under different directories resolve to
the same alias `foo.so`; the second registration fails and the count is
unchanged. -/
theorem duplicate_alias_registration_witness :
    (pluginsNew trivGitOracle (pluginsNew trivGitOracle stEmpty ("./a/foo.so".toList) false).1
        ("./b/foo.so".toList) false).2 = .error errPluginKeyExists ∧
    ((pluginsNew trivGitOracle (pluginsNew trivGitOracle stEmpty ("./a/foo.so".toList) false).1
        ("./b/foo.so".toList) false).1).ps.length =
      ((pluginsNew trivGitOracle stEmpty ("./a/foo.so".toList) false).1).ps.length :=
  duplicate_alias_registration trivGitOracle stEmpty ("./a/foo.so".toList)
    ("./b/foo.so".toList) false false ("foo.so".toList)
    { importKey := "./b/foo.so".toList, aliasName := "foo.so".toList, gitURL := []
    , filename := "./b/foo.so".toList, branch := [], update := false }
    rfl rfl rfl

/-- C5: a checkout failing with the detached-head diagnostic is terminal —
no further pull (also at the `updatePlugin` level), dependencies are
refreshed; a checkout failing for an unrecognized reason triggers exactly
one tag fetch and one checkout retry, and a second unrecognized failure
is propagated. -/
theorem checkout_failure_classification :
    (∀ (p : PluginRec) (ov : List Char) (env : ResolveEnv) (e1 : List Char),
        checkoutM env.c1 = some e1 → containsSub e1 headMsg = true →
        setTargetBranch env = (false, env.depsErr, [.checkoutOp, .depsOp]) ∧
        (p.gitURL ≠ [] → (if ov ≠ [] then ov else p.branch) ≠ [] →
          updatePlugin p ov env =
            (env.depsErr,
             (if env.sourceExists then [] else [GitOp.goGetOp]) ++ [.checkoutOp, .depsOp]) ∧
          GitOp.pullOp ∉ (updatePlugin p ov env).2)) ∧
    (∀ (env : ResolveEnv) (e1 e2 : List Char),
        checkoutM env.c1 = some e1 → containsSub e1 headMsg = false →
        env.fetchTagsErr = none →
        checkoutM env.c2 = some e2 → containsSub e2 headMsg = false →
        setTargetBranch env = (true, some e2, [.checkoutOp, .fetchTagsOp, .checkoutOp])) := by
  constructor
  · intro p ov env e1 hc1 hhead
    have hset : setTargetBranch env = (false, env.depsErr, [.checkoutOp, .depsOp]) := by
      simp [setTargetBranch, hc1, hhead]
    refine ⟨hset, fun hg hbr => ?_⟩
    have hbr2 : (if ov = [] then p.branch else ov) ≠ [] := by
      by_cases hov : ov = []
      · simpa [hov] using hbr
      · simp [hov]
    have hupd : updatePlugin p ov env =
        (env.depsErr,
         (if env.sourceExists then [] else [GitOp.goGetOp]) ++ [.checkoutOp, .depsOp]) := by
      simp [updatePlugin, hg, hbr2, hset]
    refine ⟨hupd, ?_⟩
    rw [hupd]
    cases env.sourceExists <;> simp
  · intro env e1 e2 hc1 hh1 hft hc2 hh2
    simp [setTargetBranch, hc1, hh1, hft, hc2, hh2]

/-- C5 (witness): concrete detached-head and unrecognized-failure
environments exercising both classifications. -/
theorem checkout_failure_classification_witness :
    (setTargetBranch envDetached = (false, none, [.checkoutOp, .depsOp]) ∧
     updatePlugin recGit [] envDetached = (none, [.checkoutOp, .depsOp]) ∧
     GitOp.pullOp ∉ (updatePlugin recGit [] envDetached).2) ∧
    setTargetBranch envUnrecognized =
      (true, some ("error: pathspec v9 did not match".toList),
       [.checkoutOp, .fetchTagsOp, .checkoutOp]) := by
  have h1 := checkout_failure_classification.1 recGit [] envDetached
    ("HEAD is now at 1a2b3c".toList) (by decide) (by decide)
  have h2 := h1.2 (by decide) (by decide)
  exact ⟨⟨h1.1, h2.1, h2.2⟩,
    checkout_failure_classification.2 envUnrecognized
      ("error: pathspec v9 did not match".toList)
      ("error: pathspec v9 did not match".toList)
      (by decide) (by decide) rfl (by decide) (by decide)⟩

/-- The tasks run by BuildAsync collect exactly the failing outcomes, in
order, and visit every record. -/
theorem runTasks_spec (f : List Char → Option (List Char)) :
    ∀ rs : List PluginRec,
      runTasks f rs =
        (rs.filterMap (fun q => f q.aliasName), rs.map (fun q => q.aliasName)) := by
  intro rs
  induction rs with
  | nil => rfl
  | cons r rs ih =>
    cases hf : f r.aliasName <;> simp [runTasks, ih, List.filterMap_cons, hf]

/-- C7: sequential Build stops at and returns the first failure, leaving
the records after it unbuilt; BuildAsync builds every record regardless
of failures and aggregates exactly the failing records' errors (none when
all builds succeed). -/
theorem build_failfast_vs_aggregate :
    (∀ (pre : List PluginRec) (r : PluginRec) (post : List PluginRec)
        (f : List Char → Option (List Char)) (e : List Char),
        (∀ q ∈ pre, f q.aliasName = none) → f r.aliasName = some e →
        buildSeq f (pre ++ r :: post) =
          (some e, pre.map (fun q => q.aliasName) ++ [r.aliasName])) ∧
    (∀ (rs : List PluginRec) (f : List Char → Option (List Char)),
        (buildAsync f rs).2 = rs.map (fun q => q.aliasName) ∧
        (buildAsync f rs).1 =
          (if rs.filterMap (fun q => f q.aliasName) = [] then none
           else some (rs.filterMap (fun q => f q.aliasName)))) := by
  constructor
  · intro pre
    induction pre with
    | nil =>
      intro r post f e _ hr
      simp [buildSeq, hr]
    | cons q pre ih =>
      intro r post f e hpre hr
      have hq : f q.aliasName = none := hpre q (by simp)
      have ih' := ih r post f e (fun x hx => hpre x (by simp [hx])) hr
      simp [buildSeq, hq, ih']
  · intro rs f
    constructor <;> simp [buildAsync, runTasks_spec]

/-- C7 (witness): three records with exactly one failing build —
sequential Build stops after the failure; BuildAsync visits all three and
aggregates only that failure. -/
theorem build_failfast_vs_aggregate_witness :
    buildSeq onlyBFails [recA, recB, recC] =
      (some ("compile error".toList), ["a".toList, "b".toList]) ∧
    (buildAsync onlyBFails [recA, recB, recC]).2 =
      ["a".toList, "b".toList, "c".toList] ∧
    (buildAsync onlyBFails [recA, recB, recC]).1 =
      some ["compile error".toList] :=
  ⟨build_failfast_vs_aggregate.1 [recA] recB [recC] onlyBFails
      ("compile error".toList) (by decide) (by decide),
   (build_failfast_vs_aggregate.2 [recA, recB, recC] onlyBFails).1,
   (build_failfast_vs_aggregate.2 [recA, recB, recC] onlyBFails).2⟩

/-- C9: the reflection-based binding in Backend is not total — a
destination whose dynamic type is not a pointer panics at the dereference
(instead of the not-addressable error), and a settable pointer
destination with a nil backend value panics at the runtime-type
inspection (instead of the type-mismatch error). -/
theorem backend_bind_not_total :
    (∀ (env : ReflectEnv) (dest : RDest) (bv : Option (List Char)),
        dest.isPtr = false → bindBackend env dest bv = .panicked elemPanicMsg) ∧
    (∀ (env : ReflectEnv) (dest : RDest),
        dest.isPtr = true → dest.canSet = true →
        bindBackend env dest none = .panicked zeroTypePanicMsg) := by
  constructor
  · intro env dest bv h
    simp [bindBackend, h]
  · intro env dest h1 h2
    simp [bindBackend, h1, h2]

/-- C9 (witness): a non-pointer destination and a nil backend value, both
panicking. -/
theorem backend_bind_not_total_witness :
    bindBackend { implementsRel := fun _ _ => false }
      { isPtr := false, canSet := true, elemTy := "T".toList }
      (some ("B".toList)) = .panicked elemPanicMsg ∧
    bindBackend { implementsRel := fun _ _ => false }
      { isPtr := true, canSet := true, elemTy := "T".toList }
      none = .panicked zeroTypePanicMsg :=
  ⟨backend_bind_not_total.1 _ _ _ rfl, backend_bind_not_total.2 _ _ rfl rfl⟩

/-- C1 (counterexample): after a first successful Close, Build does not
return the closed-registry error — it runs the build of the record and
reports success. -/
theorem build_after_close_counterexample :
    (closeRegistry stOne (fun _ => none)).2.1 = none ∧
    buildRegistry (closeRegistry stOne (fun _ => none)).1 (fun _ => none) =
      (none, ["myplugin".toList]) := by
  constructor
  · decide
  · decide

/-- C1 (amended): a first Close on an open registry marks it closed,
keeps its records, and invokes every record's Close capability; a second
Close returns the closed-registry error, leaves the state unchanged and
re-invokes no record Close.  The batch operations Build, BuildAsync,
Test, Retrieve, Initialize and registration perform no closed-state
check: their behavior is independent of the closed flag. -/
theorem closed_registry_semantics :
    (∀ (st : PluginsState) (cenv cenv2 : List Char → Option (List Char)),
        st.closed = false →
        (closeRegistry st cenv).1.closed = true ∧
        (closeRegistry st cenv).1.ps = st.ps ∧
        (closeRegistry st cenv).2.2 = st.ps.map (fun r => r.aliasName) ∧
        closeRegistry (closeRegistry st cenv).1 cenv2 =
          ((closeRegistry st cenv).1, some .isClosed, [])) ∧
    (∀ (st : PluginsState) (b : Bool),
        (∀ f, buildRegistry { st with closed := b } f = buildRegistry st f) ∧
        (∀ f, buildAsyncRegistry { st with closed := b } f = buildAsyncRegistry st f) ∧
        (∀ g, testRegistry { st with closed := b } g = testRegistry st g) ∧
        (∀ f, retrieveRegistry { st with closed := b } f = retrieveRegistry st f) ∧
        (∀ f, initRegistry { st with closed := b } f = initRegistry st f) ∧
        (∀ O k u,
          (pluginsNew O { st with closed := b } k u).2 = (pluginsNew O st k u).2 ∧
          ((pluginsNew O { st with closed := b } k u).1).ps =
            ((pluginsNew O st k u).1).ps)) := by
  constructor
  · intro st cenv cenv2 h
    refine ⟨?_, ?_, ?_, ?_⟩ <;> simp [closeRegistry, h]
  · intro st b
    refine ⟨fun f => rfl, fun f => rfl, fun g => rfl, fun f => rfl, fun f => rfl, ?_⟩
    intro O k u
    cases hnp : newPlugin O st.dir k u with
    | error e => simp [pluginsNew, hnp]
    | ok pi =>
      cases hap : pluginsliceAppend st.ps pi with
      | error e => simp [pluginsNew, hnp, hap]
      | ok ps2 => simp [pluginsNew, hnp, hap]

/-- C1 (witness): the concrete one-record registry — first Close closes
the record and flips the flag, second Close fails without touching it,
and Build ignores the flag. -/
theorem closed_registry_semantics_witness :
    ((closeRegistry stOne (fun _ => none)).1.closed = true ∧
     (closeRegistry stOne (fun _ => none)).1.ps = stOne.ps ∧
     (closeRegistry stOne (fun _ => none)).2.2 =
       stOne.ps.map (fun r => r.aliasName) ∧
     closeRegistry (closeRegistry stOne (fun _ => none)).1 (fun _ => none) =
       ((closeRegistry stOne (fun _ => none)).1, some .isClosed, [])) ∧
    buildRegistry { stOne with closed := true } (fun _ => none) =
      buildRegistry stOne (fun _ => none) :=
  ⟨closed_registry_semantics.1 stOne (fun _ => none) (fun _ => none) rfl,
   (closed_registry_semantics.2 stOne true).1 (fun _ => none)⟩

end VroomyPlugins
